import Mathlib

/-!
Verification of the MCP browser client's tool-orchestration layer.

The definitions below are a shallow embedding of the client's JavaScript
source: the configuration registry (MCPTools.validateConfig,
MCPTools.loadConfigFromFile), the connection bookkeeping
(MCPTools.toggleServerConnection, MCPTools.toggleServerStatus,
MCPClientApp.connectToMcpServers), the per-turn orchestration
(MCPClientApp.sendMessage, MCPClientApp.processAiWithToolsResponse), the
transcript (MCPClientApp.addMessageToChat, MCPClientApp.loadChatHistory) and
direct tool execution (MCPTools.executeTool). Asynchronous remote calls are
modelled by passing the remote reply as an explicit argument and by returning
the list of remote calls the operation issues; DOM access is reduced to the
data it carries (form field values, element presence flags).
-/

namespace MCPClient

/-- JSON values as produced by JSON.parse: null, booleans, numbers, strings,
arrays, and objects with insertion-ordered keys. Numbers are modelled as
integers; no property below depends on non-integral numeric values inside a
configuration. -/
inductive Json where
  | null
  | bool (b : Bool)
  | num (n : Int)
  | str (s : String)
  | arr (elems : List Json)
  | obj (fields : List (String × Json))

/-- Property read j[k]: the first binding of an object key, none otherwise
(JavaScript yields undefined; objects built by JSON.parse have distinct keys). -/
def getField (j : Json) (k : String) : Option Json :=
  match j with
  | .obj fields => fields.lookup k
  | _ => .none

/-- JavaScript truthiness of a JSON value. -/
def truthy : Json → Bool
  | .null => false
  | .bool b => b
  | .num n => n != 0
  | .str s => s != ""
  | .arr _ => true
  | .obj _ => true

/-- Whether the JavaScript typeof operator answers with the object type: true
for objects, arrays and null. -/
def typeofObject : Json → Bool
  | .null => true
  | .arr _ => true
  | .obj _ => true
  | _ => false

/-- Object.keys on a JSON value: the own enumerable keys of an object, the
index keys of an array, nothing for primitives. -/
def objectKeys : Json → List String
  | .obj fields => fields.map Prod.fst
  | .arr elems => (List.range elems.length).map toString
  | _ => []

/-- MCPTools.validateConfig: the parsed configuration must be truthy and carry
a truthy mcpServers field whose typeof is the object type, with at least one
key. -/
def validateConfig (config : Json) : Bool :=
  if !truthy config then false
  else
    match getField config "mcpServers" with
    | .none => false
    | .some ms =>
      if !truthy ms then false
      else if !typeofObject ms then false
      else decide (0 < (objectKeys ms).length)

/-- MCPTools.loadConfigFromFile, restricted to its effect on this.config and
its Boolean result. The file text has already been run through JSON.parse;
none models a text whose parse throws (the error is caught and false is
returned, leaving this.config untouched). -/
def loadConfigFromFile (config : Option Json) (parsed : Option Json) :
    Option Json × Bool :=
  match parsed with
  | .none => (config, false)
  | .some c => if validateConfig c then (.some c, true) else (config, false)

/-- One step of an orchestration response (POST mcp/ai_process): a model text
fragment, a tool invocation request, or a tool result payload. -/
inductive Step where
  | response (content : String)
  | toolCall (tool : String) (args : Json)
  | toolResult (content : String)

/-- The body of a POST mcp/ai_process reply as consumed by the client: an
optional plain response and an optional ordered step list. -/
structure AiResult where
  response : Option String
  steps : Option (List Step)

/-- One entry of a turn's usedTools list. -/
structure UsedTool where
  name : String
  server : String
  args : Json

/-- JavaScript String.prototype.split on the underscore separator, on the
character-list view of the string: every underscore starts a new (possibly
empty) segment. -/
def splitU : List Char → List (List Char)
  | [] => [[]]
  | c :: cs =>
    if c = '_' then [] :: splitU cs
    else
      match splitU cs with
      | [] => [[c]]
      | g :: gs => (c :: g) :: gs

/-- JavaScript Array.prototype.join with the underscore separator. -/
def joinU : List (List Char) → List Char
  | [] => []
  | [g] => g
  | g :: gs => g ++ '_' :: joinU gs

/-- The server/tool resolution of a tool_call identifier inside
MCPClientApp.processAiWithToolsResponse: when the identifier contains an
underscore it is split on every underscore, the first segment becomes the
server name and the remaining segments are rejoined with underscores as the
tool name; otherwise the server name is empty and the identifier itself is the
tool name. -/
def resolveToolIdent (tool : String) : String × String :=
  if tool.toList.contains '_' then
    match splitU tool.toList with
    | [] => ("", tool)
    | p :: ps => (String.mk p, String.mk (joinU ps))
  else ("", tool)

/-- One iteration of the step loop in processAiWithToolsResponse, acting on the
accumulated formatted response and usedTools list. In the tool_call branch the
presence check compares each recorded entry's (already stripped) name against
the full step identifier before recording, exactly as the source does. -/
def processStep (acc : String × List UsedTool) (step : Step) :
    String × List UsedTool :=
  match step with
  | .response content => (acc.1 ++ content, acc.2)
  | .toolCall tool args =>
    let used :=
      if acc.2.any (fun t => t.name == tool) then acc.2
      else
        let res := resolveToolIdent tool
        acc.2 ++ [⟨res.2, res.1, args⟩]
    (acc.1 ++ "\n\n[使用工具: " ++ tool ++ "]\n", used)
  | .toolResult content => (acc.1 ++ "\n结果: " ++ content ++ "\n\n", acc.2)

/-- MCPClientApp.processAiWithToolsResponse: folds the orchestration steps into
the formatted transcript text and the turn's usedTools list. A reply without a
steps field, or one whose formatting yields the empty string, falls back to
the raw response field or a fixed placeholder. -/
def processAiWithToolsResponse (result : AiResult) : String × List UsedTool :=
  match result.steps with
  | .none => (result.response.getD "No response received", [])
  | .some steps =>
    let folded := steps.foldl processStep ("", [])
    (if folded.1 = "" then result.response.getD "No response received"
     else folded.1,
     folded.2)

/-- The ASCII whitespace characters stripped by the string-to-number
coercion's leading/trailing trim. -/
def jsWhitespace (c : Char) : Bool :=
  c == ' ' || c == '\t' || c == '\n' || c == '\r' || c == '\x0b' || c == '\x0c'

/-- Leading and trailing whitespace removal on the character-list view. -/
def jsTrim (cs : List Char) : List Char :=
  ((cs.dropWhile jsWhitespace).reverse.dropWhile jsWhitespace).reverse

/-- The accumulated value of a decimal digit run. -/
def digitsToNat (ds : List Char) : Nat :=
  ds.foldl (fun n c => 10 * n + (c.toNat - 48)) 0

/-- JavaScript Number() applied to a form field's raw string value: total,
returning none for NaN instead of throwing. Modelled for optionally signed
decimal literals and the (whitespace-only) empty string; the properties below
depend only on totality of the coercion, never on the numeric value produced. -/
def jsNumber (s : String) : Option ℚ :=
  match jsTrim s.toList with
  | [] => some 0
  | t =>
    let signed : ℚ × List Char :=
      match t with
      | '-' :: cs => (-1, cs)
      | '+' :: cs => (1, cs)
      | cs => (1, cs)
    match signed.2.span (fun c => c.isDigit) with
    | (intPart, []) =>
      if intPart = [] then none else some (signed.1 * digitsToNat intPart)
    | (intPart, '.' :: frac) =>
      if frac.all (fun c => c.isDigit) && (intPart != [] || frac != []) then
        some (signed.1 *
          ((digitsToNat intPart : ℚ) + (digitsToNat frac : ℚ) / (10 : ℚ) ^ frac.length))
      else none
    | _ => none

/-- A coerced form value as placed into a tool call's args object. -/
inductive JSValue where
  | bool (b : Bool)
  | num (n : Option ℚ)
  | str (s : String)
  | json (j : Json)

/-- The remote calls an operation issues to the backend collaborator, in
order. -/
inductive RemoteCall where
  | connectServer (server : String)
  | connectAll
  | aiProcess (query : String)
  | callTool (server tool : String) (args : List (String × JSValue))

/-- Reply of POST mcp/connect-all as read by the client: success flag, message,
and the servers field when present and an array (none otherwise). -/
structure ConnectAllReply where
  success : Bool
  message : String
  servers : Option (List String)

/-- MCPClientApp.connectToMcpServers, restricted to its effect on the
connected-server set: on a successful reply carrying a server array every
listed name is added to the set; otherwise — failure reply, missing servers
array, rejected promise, or an absent API client or tools module — the set is
unchanged. -/
def connectToMcpServers (hasMcpApi hasMcpTools : Bool) (connected : Finset String)
    (reply : Except String ConnectAllReply) : Finset String :=
  if !hasMcpApi then connected
  else
    match reply with
    | .error _ => connected
    | .ok r =>
      if r.success then
        if hasMcpTools then
          match r.servers with
          | .some l => l.foldl (fun s n => insert n s) connected
          | .none => connected
        else connected
      else connected

/-- Reply of POST mcp/connect as read by the client; exn models a rejected
promise, caught by the surrounding try block. -/
inductive ConnectReply where
  | ok (success : Bool) (message : String)
  | exn (msg : String)

/-- Whether a connect reply resolved with a success flag. -/
def ConnectReply.isSuccess : ConnectReply → Bool
  | .ok b _ => b
  | .exn _ => false

/-- The MCPTools singleton's mutable state relevant to the registry:
the loaded configuration (none before any load), the connected-server set and
the API-availability flag captured at init. -/
structure ToolsState where
  config : Option Json
  connectedServers : Finset String
  hasApiAccess : Bool

/-- Truthiness of the entry config.mcpServers[name]: the guard shared by
toggleServerStatus and toggleServerConnection. (When mcpServers itself is
absent the JavaScript property chain would throw; every configuration stored
by a successful load has it, and the guard is modelled as failing.) -/
def hasServerEntry (st : ToolsState) (name : String) : Bool :=
  match st.config with
  | .none => false
  | .some c =>
    match getField c "mcpServers" with
    | .none => false
    | .some ms =>
      match getField ms name with
      | .none => false
      | .some sc => truthy sc

/-- Property write j[k] = v on a JSON object: overwrites the binding in place
or appends a new one; on non-objects the write is modelled as having no effect
(every node reached by the registry operations is an object in a validated
configuration). -/
def setField (j : Json) (k : String) (v : Json) : Json :=
  match j with
  | .obj fields =>
    if fields.any (fun p => p.1 == k) then
      .obj (fields.map (fun p => if p.1 == k then (k, v) else p))
    else .obj (fields ++ [(k, v)])
  | _ => j

/-- MCPTools.toggleServerConnection: guarded by API access and a truthy config
entry for the server. With connect true, one remote connect request is issued
and the name joins the connected set exactly when the reply resolves with
success (a failure reply or a rejected promise leaves the set unchanged). With
connect false no remote call is issued — the transport has no disconnect — and
the name is deleted from the connected set. -/
def toggleServerConnection (st : ToolsState) (name : String) (connect : Bool)
    (reply : ConnectReply) : ToolsState × List RemoteCall :=
  if !st.hasApiAccess then (st, [])
  else if !hasServerEntry st name then (st, [])
  else if connect then
    (if reply.isSuccess then
      {st with connectedServers := insert name st.connectedServers}
     else st,
     [.connectServer name])
  else
    ({st with connectedServers := st.connectedServers.erase name}, [])

/-- MCPTools.toggleServerStatus: negates the truthiness of the server entry's
disabled field and writes it back as a Boolean; when the new value is disabled
and the server is in the connected set, performs the local disconnect through
toggleServerConnection with connect false. The reply argument only keeps the
signature uniform: the disconnect path never consults it. -/
def toggleServerStatus (st : ToolsState) (name : String) (reply : ConnectReply) :
    ToolsState × List RemoteCall :=
  match st.config with
  | .none => (st, [])
  | .some c =>
    match getField c "mcpServers" with
    | .none => (st, [])
    | .some ms =>
      match getField ms name with
      | .none => (st, [])
      | .some sc =>
        if !truthy sc then (st, [])
        else
          let newDisabled := !truthy ((getField sc "disabled").getD .null)
          let sc2 := setField sc "disabled" (.bool newDisabled)
          let c2 := setField c "mcpServers" (setField ms name sc2)
          let st2 : ToolsState := {st with config := .some c2}
          if newDisabled ∧ name ∈ st.connectedServers then
            toggleServerConnection st2 name false reply
          else (st2, [])

/-- One transcript entry as pushed onto this.chatHistory. -/
structure ChatMsg where
  role : String
  content : String
  usedTools : List UsedTool
  timestamp : String

/-- A user-visible notification: message text and severity. -/
structure Notif where
  message : String
  level : String

/-- The MCPClientApp state touched by the messaging paths: element-presence
flags for the DOM nodes the methods guard on, the API-client flag, the
processing flag, the input box contents, the current provider/model selection,
the per-provider API keys (empty string when absent, merging the mcpApi cache
with its localStorage fallback) and the transcript. -/
structure AppState where
  hasElements : Bool
  hasChatContainer : Bool
  hasMcpApi : Bool
  isProcessing : Bool
  inputValue : String
  currentProvider : String
  currentModel : String
  apiKeys : String → String
  chatHistory : List ChatMsg

/-- MCPClientApp.addMessageToChat, restricted to its effect on chatHistory: a
no-op without a chat container, otherwise an append of one entry stamped with
the current time. -/
def addMessageToChat (st : AppState) (role content : String)
    (usedTools : List UsedTool) (now : String) : AppState :=
  if st.hasChatContainer then
    {st with chatHistory := st.chatHistory ++ [⟨role, content, usedTools, now⟩]}
  else st

/-- MCPClientApp.sendMessage. The two awaited remote operations are passed as
explicit replies: connectReply for mcpApi.connectToAllMcpServers (its resolved
value is ignored; a rejection is caught) and aiReply for mcpApi.processWithAI.
Returns the new state, the notifications shown and the remote calls issued. -/
def sendMessage (st : AppState) (connectReply : Except String ConnectAllReply)
    (aiReply : Except String AiResult) (now : String) :
    AppState × List Notif × List RemoteCall :=
  if !st.hasElements then (st, [], [])
  else if st.isProcessing then
    (st, [⟨"Please wait for the current message to finish processing.", "warning"⟩], [])
  else
    let message := st.inputValue.trim
    if message = "" then (st, [], [])
    else if st.currentProvider = "" ∨ st.currentModel = "" then
      (st, [⟨"Please select a provider and model first.", "error"⟩], [])
    else if st.currentProvider ≠ "ollama" ∧ st.apiKeys st.currentProvider = "" then
      (st, [⟨"Please enter an API key for the selected provider.", "error"⟩], [])
    else
      let st1 : AppState := {st with isProcessing := true, inputValue := ""}
      let st2 := addMessageToChat st1 "user" message [] now
      if st.hasMcpApi then
        match connectReply with
        | .error e =>
          ({addMessageToChat st2 "ai" ("Error: " ++ e) [] now with isProcessing := false},
           [⟨"Error: " ++ e, "error"⟩], [.connectAll])
        | .ok _ =>
          match aiReply with
          | .error e =>
            ({addMessageToChat st2 "ai" ("Error: " ++ e) [] now with isProcessing := false},
             [⟨"Error: " ++ e, "error"⟩], [.connectAll, .aiProcess message])
          | .ok result =>
            let processed := processAiWithToolsResponse result
            ({addMessageToChat st2 "ai" processed.1 processed.2 now with isProcessing := false},
             [], [.connectAll, .aiProcess message])
      else
        let simulated := "This is a simulated response to: \"" ++ message ++
          "\"\n\nIn a real implementation, this would be a response from the " ++
          st.currentProvider ++ " API using the " ++ st.currentModel ++ " model."
        ({addMessageToChat st2 "ai" simulated [] now with isProcessing := false}, [], [])

/-- MCPClientApp.loadChatHistory: a no-op without a chat container or without a
stored history (none also models a stored value whose parse throws, caught).
Otherwise assigns the parsed list to chatHistory and then replays every parsed
entry through addMessageToChat — which appends it to chatHistory again, with
the default empty usedTools and a fresh timestamp. The forEach iterates only
over the entries present when it starts. -/
def loadChatHistory (st : AppState) (saved : Option (List ChatMsg)) (now : String) :
    AppState :=
  if !st.hasChatContainer then st
  else
    match saved with
    | .none => st
    | .some h =>
      h.foldl (fun s m => addMessageToChat s m.role m.content [] now)
        {st with chatHistory := h}

/-- One input element of a tool form: its name attribute, its data-type
attribute (set from the schema when the form was built), its raw string value
and its checkbox state. -/
structure FormField where
  name : String
  dtype : String
  value : String
  checked : Bool

/-- The schema-directed coercion of one form field inside MCPTools.executeTool:
checkbox state for boolean, Number() for number and integer (total — a
non-numeric string coerces to NaN, it does not throw), JSON.parse for object
and array (throwing, caught as an error, on malformed input), raw string
otherwise. JSON.parse itself is a language builtin, passed as a parameter. -/
def coerceField (parseJson : String → Option Json) (f : FormField) :
    Except String JSValue :=
  if f.dtype == "boolean" then .ok (.bool f.checked)
  else if f.dtype == "number" || f.dtype == "integer" then .ok (.num (jsNumber f.value))
  else if f.dtype == "object" || f.dtype == "array" then
    match parseJson f.value with
    | .some j => .ok (.json j)
    | .none => .error ("Invalid JSON in " ++ f.name)
  else .ok (.str f.value)

/-- Assignment inputs[k] = v on the collected-arguments object: overwrites in
place or appends. -/
def setKey (m : List (String × JSValue)) (k : String) (v : JSValue) :
    List (String × JSValue) :=
  if m.any (fun p => p.1 == k) then
    m.map (fun p => if p.1 == k then (k, v) else p)
  else m ++ [(k, v)]

/-- The input-collection loop of MCPTools.executeTool: form elements are
visited in document order, nameless elements and a submit element are skipped,
and the first coercion error aborts the whole collection (the thrown error
propagates out of forEach before any network call). -/
def collectInputs (parseJson : String → Option Json) :
    List FormField → List (String × JSValue) → Except String (List (String × JSValue))
  | [], acc => .ok acc
  | f :: fs, acc =>
    if f.name == "" || f.name == "submit" then collectInputs parseJson fs acc
    else
      match coerceField parseJson f with
      | .error e => .error e
      | .ok v => collectInputs parseJson fs (setKey acc f.name v)

/-- Reply of POST mcp/call_tool as read by the client. -/
structure CallToolReply where
  success : Bool
  result : Option Json
  error : Option String

/-- How an executeTool invocation ended, as shown in the result container. -/
inductive ExecOutcome where
  | missingInterface
  | noApiAccess
  | serverNotConnected
  | caught (msg : String)
  | executed (reply : CallToolReply)

/-- MCPTools.executeTool: guarded by the presence of the tool interface and
result container, API access, and membership of the owning server in the
connected set; then collects and coerces the form inputs — aborting before any
network call on a coercion error — and issues exactly one mcp/call_tool
request whose reply (or rejection, caught) is rendered. -/
def executeTool (hasInterface hasApiAccess : Bool) (connected : Finset String)
    (serverName toolName : String) (fields : List FormField)
    (parseJson : String → Option Json) (reply : Except String CallToolReply) :
    List RemoteCall × ExecOutcome :=
  if !hasInterface then ([], .missingInterface)
  else if !hasApiAccess then ([], .noApiAccess)
  else if serverName ∉ connected then ([], .serverNotConnected)
  else
    match collectInputs parseJson fields [] with
    | .error e => ([], .caught e)
    | .ok inputs =>
      match reply with
      | .error e => ([.callTool serverName toolName inputs], .caught e)
      | .ok r => ([.callTool serverName toolName inputs], .executed r)

/-- The orchestration reply of the specification's example scenario: a call of
fs_list_dir with empty args, its result, then the closing response text. -/
def exampleTurn : AiResult :=
  ⟨.none, .some [.toolCall "fs_list_dir" (Json.obj []),
                 .toolResult "[a.txt, b.txt]",
                 .response "Here are your files."]⟩

/-- A state whose turn is still in progress, with every submission precondition
otherwise satisfied. -/
def busyState : AppState :=
  ⟨true, true, true, true, "second question", "openai", "gpt-4", fun _ => "key", []⟩

/-- A persisted one-entry transcript used to exercise rehydration. -/
def sampleMsg : ChatMsg := ⟨"user", "hi", [], "t1"⟩

/-- A validated single-server configuration with the server enabled. -/
def sampleConfig : Json :=
  Json.obj [("mcpServers", Json.obj [("fs", Json.obj [("disabled", Json.bool false)])])]

/-- A registry state holding sampleConfig with server fs connected. -/
def sampleTools : ToolsState := ⟨.some sampleConfig, {"fs"}, true⟩

/-! Helper lemmas about the underscore split. -/

theorem splitU_ne_nil (cs : List Char) : splitU cs ≠ [] := by
  cases cs with
  | nil => simp [splitU]
  | cons c cs =>
    simp only [splitU]
    split
    · simp
    · split <;> simp

theorem splitU_head (cs : List Char) :
    ∃ gs, splitU cs = cs.takeWhile (fun c => c != '_') :: gs := by
  induction cs with
  | nil => exact ⟨[], rfl⟩
  | cons c cs ih =>
    by_cases hc : c = '_'
    · subst hc
      exact ⟨splitU cs, by simp [splitU, List.takeWhile_cons]⟩
    · obtain ⟨gs, hgs⟩ := ih
      refine ⟨gs, ?_⟩
      have hb : (c != '_') = true := by simp [hc]
      simp [splitU, hc, hgs, List.takeWhile_cons, hb]

theorem joinU_cons (g : List Char) (gs : List (List Char)) (h : gs ≠ []) :
    joinU (g :: gs) = g ++ '_' :: joinU gs := by
  cases gs with
  | nil => exact absurd rfl h
  | cons g2 gs2 => rfl

theorem joinU_splitU (cs : List Char) : joinU (splitU cs) = cs := by
  induction cs with
  | nil => rfl
  | cons c cs ih =>
    by_cases hc : c = '_'
    · subst hc
      have h1 : splitU ('_' :: cs) = [] :: splitU cs := by simp [splitU]
      rw [h1, joinU_cons [] (splitU cs) (splitU_ne_nil cs), ih]
      rfl
    · cases h : splitU cs with
      | nil => exact absurd h (splitU_ne_nil cs)
      | cons g gs =>
        have h1 : splitU (c :: cs) = (c :: g) :: gs := by
          simp [splitU, hc, h]
        rw [h] at ih
        cases gs with
        | nil =>
          rw [h1]
          simpa [joinU] using congrArg (c :: ·) ih
        | cons g2 gs2 =>
          rw [h1, joinU_cons (c :: g) (g2 :: gs2) (by simp),
              List.cons_append, ← joinU_cons g (g2 :: gs2) (by simp), ih]

theorem joinU_splitU_tail (cs : List Char) (h : '_' ∈ cs) :
    joinU ((splitU cs).drop 1) = (cs.dropWhile (fun c => c != '_')).drop 1 := by
  induction cs with
  | nil => cases h
  | cons c cs ih =>
    by_cases hc : c = '_'
    · subst hc
      have h1 : splitU ('_' :: cs) = [] :: splitU cs := by simp [splitU]
      rw [h1]
      simpa [List.dropWhile_cons] using joinU_splitU cs
    · have hmem : '_' ∈ cs := by
        cases h with
        | head => exact absurd rfl hc
        | tail _ h2 => exact h2
      cases hsp : splitU cs with
      | nil => exact absurd hsp (splitU_ne_nil cs)
      | cons g gs =>
        have h1 : splitU (c :: cs) = (c :: g) :: gs := by
          simp [splitU, hc, hsp]
        have hb : (c != '_') = true := by simp [hc]
        rw [h1]
        have h2 := ih hmem
        rw [hsp] at h2
        simpa [List.dropWhile_cons, hb] using h2

/-! Claim theorems. -/

/-- Claim C1 names the intended behaviour, but the source misses it: the
presence check of processAiWithToolsResponse compares the recorded (stripped)
names against the full step identifier, so a repeated prefixed identifier is
recorded once per occurrence. Evaluating the embedded function on a response
whose two tool_call steps both carry fs_list_dir yields the (server fs, tool
list_dir) pair twice in usedTools, where the claim demands exactly one entry. -/
theorem C1_duplicate_usedTools_eval :
    (processAiWithToolsResponse
      ⟨.none, .some [.toolCall "fs_list_dir" (Json.obj []),
                     .toolCall "fs_list_dir" (Json.obj [])]⟩).2
      = [⟨"list_dir", "fs", Json.obj []⟩, ⟨"list_dir", "fs", Json.obj []⟩] := by
  rfl

/-- Claim C3: on the example orchestration response (tool_call fs_list_dir
with empty args, tool_result for the file listing, closing response text) the
composed transcript content ends with the closing text, contains the delimited
result block with the file listing, and the turn's usedTools is exactly the
single pair of server fs and tool list_dir. -/
theorem C3_example_turn :
    (∃ pre, (processAiWithToolsResponse exampleTurn).1
        = pre ++ "Here are your files.")
    ∧ (∃ pre post, (processAiWithToolsResponse exampleTurn).1
        = pre ++ "\n结果: [a.txt, b.txt]\n\n" ++ post)
    ∧ (processAiWithToolsResponse exampleTurn).2
        = [⟨"list_dir", "fs", Json.obj []⟩] :=
  ⟨⟨"\n\n[使用工具: fs_list_dir]\n\n结果: [a.txt, b.txt]\n\n", rfl⟩,
   ⟨"\n\n[使用工具: fs_list_dir]\n", "Here are your files.", rfl⟩,
   rfl⟩

/-- Claim C5: a parsed configuration whose mcpServers field is missing, whose
typeof is not the object type, or which is an empty mapping makes the load
fail with the previously loaded configuration unchanged; a configuration the
validation accepts (at least one server) replaces the stored configuration
atomically with exactly the parsed input. A file whose parse throws also
leaves the stored configuration unchanged. -/
theorem C5_load_validation (cfg : Option Json) (c : Json) :
    (getField c "mcpServers" = .none →
      loadConfigFromFile cfg (.some c) = (cfg, false))
    ∧ (∀ ms, getField c "mcpServers" = .some ms → typeofObject ms = false →
      loadConfigFromFile cfg (.some c) = (cfg, false))
    ∧ (getField c "mcpServers" = .some (.obj []) →
      loadConfigFromFile cfg (.some c) = (cfg, false))
    ∧ (validateConfig c = true →
      loadConfigFromFile cfg (.some c) = (.some c, true))
    ∧ loadConfigFromFile cfg .none = (cfg, false) := by
  refine ⟨?_, ?_, ?_, ?_, rfl⟩
  · intro h
    cases htc : truthy c <;>
      simp [loadConfigFromFile, validateConfig, h, htc]
  · intro ms h hobj
    cases htc : truthy c <;> cases htm : truthy ms <;>
      simp [loadConfigFromFile, validateConfig, h, htc, htm, hobj]
  · intro h
    cases htc : truthy c <;>
      simp [loadConfigFromFile, validateConfig, h, htc, truthy, typeofObject, objectKeys]
  · intro h
    simp [loadConfigFromFile, h]

/-- Claim C5 witness: loading an input without mcpServers keeps the previously
stored configuration and reports failure. -/
theorem C5_load_validation_witness :
    loadConfigFromFile
        (.some (Json.obj [("mcpServers", Json.obj [("fs", Json.obj [])])]))
        (.some (Json.obj []))
      = (.some (Json.obj [("mcpServers", Json.obj [("fs", Json.obj [])])]), false) :=
  (C5_load_validation _ _).1 rfl

/-- Claim C6: for every tool identifier containing an underscore, resolution
takes the characters before the first underscore as the server name and the
remainder after that first underscore — later underscores preserved — as the
tool name, unconditionally. -/
theorem C6_first_underscore_split (tool : String)
    (h : tool.toList.contains '_' = true) :
    resolveToolIdent tool
      = (String.mk (tool.toList.takeWhile (fun c => c != '_')),
         String.mk ((tool.toList.dropWhile (fun c => c != '_')).drop 1)) := by
  obtain ⟨gs, hgs⟩ := splitU_head tool.toList
  have hmem : '_' ∈ tool.toList := by simpa using h
  have htail : joinU gs = (tool.toList.dropWhile (fun c => c != '_')).drop 1 := by
    have h2 := joinU_splitU_tail tool.toList hmem
    rw [hgs] at h2
    simpa using h2
  simp only [resolveToolIdent, h, if_true, hgs]
  simp [htail, List.drop_one]

/-- Claim C6 witness: the identifier from the source's own comment resolves to
server doc-qa-server and tool query_docs. -/
theorem C6_first_underscore_split_witness :
    resolveToolIdent "doc-qa-server_query_docs" = ("doc-qa-server", "query_docs") := by
  rw [C6_first_underscore_split "doc-qa-server_query_docs" (by rfl)]
  rfl

/-! Helper lemma: folding set inserts is merging with the list's finset. -/

theorem foldl_insert_eq_union (l : List String) (s : Finset String) :
    l.foldl (fun acc n => insert n acc) s = s ∪ l.toFinset := by
  induction l generalizing s with
  | nil => simp
  | cons a l ih =>
    simp [ih, Finset.insert_union, Finset.union_insert, List.toFinset_cons]

/-- Claim C9: merging one fixed connect-all reply into the connected set twice
in succession, with no enable/disable change in between, yields the same
connected set as merging it once. -/
theorem C9_connectAll_idempotent (hasMcpApi hasMcpTools : Bool)
    (connected : Finset String) (reply : Except String ConnectAllReply) :
    connectToMcpServers hasMcpApi hasMcpTools
        (connectToMcpServers hasMcpApi hasMcpTools connected reply) reply
      = connectToMcpServers hasMcpApi hasMcpTools connected reply := by
  cases hasMcpApi with
  | false => simp [connectToMcpServers]
  | true =>
    cases reply with
    | error e => simp [connectToMcpServers]
    | ok r =>
      cases hs : r.success with
      | false => simp [connectToMcpServers, hs]
      | true =>
        cases hasMcpTools with
        | false => simp [connectToMcpServers, hs]
        | true =>
          cases hsrv : r.servers with
          | none => simp [connectToMcpServers, hs, hsrv]
          | some l =>
            simp [connectToMcpServers, hs, hsrv, foldl_insert_eq_union,
              Finset.union_assoc]

/-- Claim C7: a connect operation adds the server name to the connected set
exactly when the remote connect reply reports success; a failure reply, a
rejected promise, or a guard rejection leaves the set unchanged. -/
theorem C7_connect_only_on_success (st : ToolsState) (name : String)
    (reply : ConnectReply) :
    (toggleServerConnection st name true reply).1.connectedServers
      = (if st.hasApiAccess && hasServerEntry st name && reply.isSuccess
         then insert name st.connectedServers
         else st.connectedServers) := by
  cases reply with
  | exn m =>
    cases hapi : st.hasApiAccess <;> cases hsrv : hasServerEntry st name <;>
      simp [toggleServerConnection, hapi, hsrv, ConnectReply.isSuccess]
  | ok b m =>
    cases hapi : st.hasApiAccess <;> cases hsrv : hasServerEntry st name <;>
      cases b <;>
        simp [toggleServerConnection, hapi, hsrv, ConnectReply.isSuccess]

/-- Claim C4: while a turn is in progress, a new submission only produces the
still-processing warning: the state — in particular the transcript — is
unchanged, and nothing is queued or sent. -/
theorem C4_reject_while_processing (st : AppState)
    (connectReply : Except String ConnectAllReply) (aiReply : Except String AiResult)
    (now : String) (helem : st.hasElements = true) (hproc : st.isProcessing = true) :
    sendMessage st connectReply aiReply now
      = (st, [⟨"Please wait for the current message to finish processing.", "warning"⟩], [])
    ∧ (sendMessage st connectReply aiReply now).1.chatHistory = st.chatHistory := by
  have h : sendMessage st connectReply aiReply now
      = (st, [⟨"Please wait for the current message to finish processing.", "warning"⟩], []) := by
    simp [sendMessage, helem, hproc]
  exact ⟨h, by rw [h]⟩

/-- Claim C4 witness: a concrete busy state rejects a submission with the
warning and without any state change or remote call. -/
theorem C4_reject_while_processing_witness :
    sendMessage busyState (.ok ⟨true, "ok", .none⟩) (.error "boom") "t0"
      = (busyState,
         [⟨"Please wait for the current message to finish processing.", "warning"⟩], []) :=
  (C4_reject_while_processing busyState (.ok ⟨true, "ok", .none⟩) (.error "boom") "t0"
    rfl rfl).1

/-! Helper lemma: replaying entries through addMessageToChat appends their
timestamp-refreshed, usedTools-stripped copies. -/

theorem foldl_addMessageToChat (now : String) (h : List ChatMsg) :
    ∀ st : AppState, st.hasChatContainer = true →
      (h.foldl (fun s m => addMessageToChat s m.role m.content [] now) st).chatHistory
        = st.chatHistory ++ h.map (fun m => ⟨m.role, m.content, [], now⟩) := by
  induction h with
  | nil => intro st hcc; simp
  | cons m t ih =>
    intro st hcc
    simp only [List.foldl_cons, List.map_cons]
    rw [ih _ (by simp [addMessageToChat, hcc])]
    simp [addMessageToChat, hcc]

/-- Claim C10: rehydrating a persisted transcript of n entries leaves
chatHistory with 2n entries — the parsed list followed by the replayed copies,
each with an empty usedTools list and the load-time timestamp — so the next
persistence writes the doubled list. -/
theorem C10_rehydration_doubles (st : AppState) (h : List ChatMsg) (now : String)
    (hcc : st.hasChatContainer = true) :
    (loadChatHistory st (.some h) now).chatHistory
        = h ++ h.map (fun m => ⟨m.role, m.content, [], now⟩)
    ∧ (loadChatHistory st (.some h) now).chatHistory.length = 2 * h.length := by
  have hmain : (loadChatHistory st (.some h) now).chatHistory
      = h ++ h.map (fun m => ⟨m.role, m.content, [], now⟩) := by
    simp only [loadChatHistory, hcc, Bool.not_true, Bool.false_eq_true, if_false]
    rw [foldl_addMessageToChat now h _ (by simp [hcc])]
  refine ⟨hmain, ?_⟩
  rw [hmain]
  simp [List.length_append, List.length_map]
  omega

/-- Claim C10 witness: a persisted single-entry transcript rehydrates into two
in-memory entries. -/
theorem C10_rehydration_doubles_witness :
    (loadChatHistory ⟨true, true, true, false, "", "", "", fun _ => "", []⟩
        (.some [sampleMsg]) "t2").chatHistory.length = 2 := by
  have h := (C10_rehydration_doubles
    ⟨true, true, true, false, "", "", "", fun _ => "", []⟩ [sampleMsg] "t2" rfl).2
  simpa using h

/-! Helper lemmas about JSON object reads and writes. -/

theorem truthy_obj (fs : List (String × Json)) : truthy (Json.obj fs) = true := rfl

theorem getField_some_obj (j : Json) (k : String) (v : Json)
    (h : getField j k = .some v) : ∃ fs, j = Json.obj fs := by
  cases j
  case obj fs => exact ⟨fs, rfl⟩
  all_goals simp [getField] at h

theorem setField_isObj (fs : List (String × Json)) (k : String) (v : Json) :
    ∃ fs2, setField (Json.obj fs) k v = Json.obj fs2 := by
  simp only [setField]
  split
  · exact ⟨_, rfl⟩
  · exact ⟨_, rfl⟩

theorem lookup_map_overwrite (k : String) (v : Json) (fs : List (String × Json)) :
    fs.any (fun p => p.1 == k) = true →
      List.lookup k (fs.map (fun p => if p.1 == k then (k, v) else p)) = .some v := by
  induction fs with
  | nil => intro h; simp at h
  | cons p ps ih =>
    obtain ⟨p1, p2⟩ := p
    intro h
    simp only [List.any_cons, Bool.or_eq_true] at h
    simp only [List.map_cons]
    by_cases hp : (p1 == k) = true
    · rw [if_pos hp]
      simp [List.lookup]
    · rw [if_neg (by simpa using hp)]
      have hk : (k == p1) = false := by
        have hne : ¬ p1 = k := by simpa using hp
        simpa using fun hh : k = p1 => hne hh.symm
      simp only [List.lookup, hk]
      rcases h with h1 | h2
      · exact absurd h1 hp
      · exact ih h2

theorem lookup_append_new (k : String) (v : Json) (fs : List (String × Json)) :
    fs.any (fun p => p.1 == k) = false →
      List.lookup k (fs ++ [(k, v)]) = .some v := by
  induction fs with
  | nil => intro h; simp [List.lookup]
  | cons p ps ih =>
    obtain ⟨p1, p2⟩ := p
    intro h
    rw [List.any_cons] at h
    rcases Bool.or_eq_false_iff.mp h with ⟨h1, h2⟩
    have hk : (k == p1) = false := by
      have hne : ¬ p1 = k := by simpa using h1
      simpa using fun hh : k = p1 => hne hh.symm
    simp only [List.cons_append, List.lookup, hk]
    exact ih h2

theorem getField_setField (fs : List (String × Json)) (k : String) (v : Json) :
    getField (setField (Json.obj fs) k v) k = .some v := by
  simp only [setField]
  split
  next h => simpa [getField] using lookup_map_overwrite k v fs h
  next h =>
    have h2 : fs.any (fun p => p.1 == k) = false := by
      simpa only [Bool.not_eq_true] using h
    simpa [getField] using lookup_append_new k v fs h2

/-- Claim C8: disabling a currently connected, currently enabled server erases
exactly that server's name from the connected set, issues no remote call, and
leaves every other name's membership unchanged; re-enabling a disabled server
issues no remote call and leaves the connected set entirely unchanged. -/
theorem C8_disable_enable (st : ToolsState) (name : String) (c ms : Json)
    (scf : List (String × Json)) (reply : ConnectReply)
    (hapi : st.hasApiAccess = true)
    (hc : st.config = .some c)
    (hms : getField c "mcpServers" = .some ms)
    (hsc : getField ms name = .some (.obj scf)) :
    (truthy ((getField (.obj scf) "disabled").getD .null) = false →
      name ∈ st.connectedServers →
        (toggleServerStatus st name reply).1.connectedServers
            = st.connectedServers.erase name
        ∧ (toggleServerStatus st name reply).2 = []
        ∧ ∀ m, m ≠ name →
            (m ∈ (toggleServerStatus st name reply).1.connectedServers ↔
              m ∈ st.connectedServers))
    ∧ (truthy ((getField (.obj scf) "disabled").getD .null) = true →
        (toggleServerStatus st name reply).1.connectedServers = st.connectedServers
        ∧ (toggleServerStatus st name reply).2 = []) := by
  obtain ⟨cf, rfl⟩ := getField_some_obj c "mcpServers" ms hms
  obtain ⟨mf, rfl⟩ := getField_some_obj ms name (.obj scf) hsc
  constructor
  · intro hdis hconn
    obtain ⟨sf2, hsf2⟩ := setField_isObj scf "disabled" (.bool true)
    have hres : toggleServerStatus st name reply
        = ({st with
              config := .some (setField (Json.obj cf) "mcpServers"
                (setField (Json.obj mf) name
                  (setField (Json.obj scf) "disabled" (.bool true)))),
              connectedServers := st.connectedServers.erase name}, []) := by
      simp only [toggleServerStatus, hc, hms, hsc, truthy_obj, Bool.not_true,
        Bool.false_eq_true, if_false, hdis, Bool.not_false, hconn, and_true,
        if_true, toggleServerConnection, hasServerEntry, hapi,
        getField_setField, hsf2, truthy_obj, Bool.not_eq_true]
    rw [hres]
    refine ⟨rfl, rfl, fun m hm => ?_⟩
    simp [Finset.mem_erase, hm]
  · intro hdis
    have hres : toggleServerStatus st name reply
        = ({st with
              config := .some (setField (Json.obj cf) "mcpServers"
                (setField (Json.obj mf) name
                  (setField (Json.obj scf) "disabled" (.bool false))))}, []) := by
      simp only [toggleServerStatus, hc, hms, hsc, truthy_obj, Bool.not_true,
        Bool.false_eq_true, if_false, hdis, Bool.not_true, false_and]
    rw [hres]
    exact ⟨rfl, rfl⟩

/-- Claim C8 witness: disabling the connected server fs of the sample registry
empties the connected set and issues no remote call. -/
theorem C8_disable_enable_witness :
    (toggleServerStatus sampleTools "fs" (.exn "late")).1.connectedServers
        = ({"fs"} : Finset String).erase "fs"
    ∧ (toggleServerStatus sampleTools "fs" (.exn "late")).2 = [] := by
  have h := (C8_disable_enable sampleTools "fs" sampleConfig
    (Json.obj [("fs", Json.obj [("disabled", Json.bool false)])])
    [("disabled", Json.bool false)] (.exn "late") rfl rfl rfl rfl).1 rfl (by decide)
  exact ⟨h.1, h.2.1⟩

/-- Claim C2 as amended: a number- or integer-typed form field never aborts
the execution — its value is coerced with the total Number() (a non-numeric
string becomes NaN) — and, with the guards satisfied, exactly one mcp/call_tool
network request is issued carrying that coerced argument. -/
theorem C2_number_never_aborts (serverName toolName fname v : String) (ch : Bool)
    (connected : Finset String) (parseJson : String → Option Json) (r : CallToolReply)
    (hconn : serverName ∈ connected) (h1 : fname ≠ "") (h2 : fname ≠ "submit") :
    executeTool true true connected serverName toolName
        [⟨fname, "integer", v, ch⟩] parseJson (.ok r)
      = ([.callTool serverName toolName [(fname, .num (jsNumber v))]], .executed r) := by
  have hb1 : (fname == "") = false := by simpa using h1
  have hb2 : (fname == "submit") = false := by simpa using h2
  simp [executeTool, hconn, collectInputs, coerceField, setKey, hb1, hb2]

/-- Claim C2 amended witness: the non-numeric input abc on an integer field is
sent as NaN in one network call and the remote reply is rendered. -/
theorem C2_number_never_aborts_witness :
    executeTool true true {"srv"} "srv" "add2"
        [⟨"x", "integer", "abc", false⟩] (fun _ => .none)
        (.ok ⟨false, .none, .some "err"⟩)
      = ([.callTool "srv" "add2" [("x", .num (jsNumber "abc"))]],
         .executed ⟨false, .none, .some "err"⟩) :=
  C2_number_never_aborts "srv" "add2" "x" "abc" false {"srv"} (fun _ => .none)
    ⟨false, .none, .some "err"⟩ (by decide) (by decide) (by decide)

/-- Claim C2 counterexample: with an integer-typed field holding the
non-numeric input abc, executeTool issues one network call — not zero — and no
coercion error of any kind is raised: Number coerces the input to NaN. -/
theorem C2_nonnumeric_counterexample :
    executeTool true true {"srv"} "srv" "add"
        [⟨"x", "integer", "abc", false⟩] (fun _ => .none)
        (.ok ⟨true, .some (.str "ok"), .none⟩)
      = ([.callTool "srv" "add" [("x", .num .none)]],
         .executed ⟨true, .some (.str "ok"), .none⟩)
    ∧ jsNumber "abc" = .none := by
  constructor
  · rfl
  · rfl

end MCPClient
